import Mathlib

/-!
Verification of the task-automation service (FastAPI app: `app/main.py`,
`app/config.py`, `app/utils/security.py`, `app/utils/file_ops.py`,
`app/utils/llm.py`, `app/handlers/...`) against its natural-language design
specification.

The development shallowly embeds the Python code:

* Strings are modelled as `List Char` (`Chars`); filesystem paths as lists of
  path segments (`APath`), always absolute after resolution.
* `pathlib.Path.resolve()` is modelled as purely lexical normalisation of
  `.` , `..` and empty segments over a symlink-free filesystem, with an
  explicit current working directory for relative inputs.
* The filesystem is an association list from resolved paths to file contents;
  directories are implicit.
* `fastapi.HTTPException(status_code, detail)` is modelled by the `Err`
  structure; Python functions that may raise are embedded as `Except Err`
  valued functions.
* JSON values (`json.dumps(·, indent=2)` / `json.loads`) are modelled by the
  mutually inductive `Json` type with an executable serializer and parser.
  JSON numbers are modelled as integers: floating-point values are outside
  the scope of this embedding.
* Calls to the external text-generation collaborator are modelled by an
  oracle: a list of pre-determined replies consumed one per call.
-/

/-! ## Characters and strings -/

abbrev Chars := List Char

def strChars (s : String) : Chars := s.data

/-- Whitespace characters the JSON lexer skips (space, tab, LF, CR). -/
def isWsChar (c : Char) : Bool := c == ' ' || c == '\t' || c == '\n' || c == '\r'

/-- Whitespace for Python `str.strip()` (the `Py_UNICODE_ISSPACE` set):
ASCII 0x09-0x0d, the separators 0x1c-0x1f, space, NEL, NBSP, and the
Unicode space/line/paragraph separators. -/
def isPyWs (c : Char) : Bool :=
  (9 ≤ c.toNat && c.toNat ≤ 13) || (28 ≤ c.toNat && c.toNat ≤ 32) ||
  c.toNat == 0x85 || c.toNat == 0xa0 || c.toNat == 0x1680 ||
  (0x2000 ≤ c.toNat && c.toNat ≤ 0x200a) ||
  c.toNat == 0x2028 || c.toNat == 0x2029 || c.toNat == 0x202f ||
  c.toNat == 0x205f || c.toNat == 0x3000

/-- Model of Python `str.strip()` on character lists. -/
def stripL (cs : Chars) : Chars :=
  ((cs.dropWhile isPyWs).reverse.dropWhile isPyWs).reverse

/-- Model of Python `str.strip()` on strings. -/
def stripS (s : String) : String := String.mk (stripL s.data)

/-- Model of Python `str.startswith`. -/
def startsWithL (pat cs : Chars) : Bool := pat.isPrefixOf cs

/-- Model of the Python substring test `needle in s`. -/
def containsSubL (needle : Chars) : Chars → Bool
  | [] => needle.isEmpty
  | c :: cs => needle.isPrefixOf (c :: cs) || containsSubL needle cs

/-- Split a character list at every occurrence of `sep` (Python `str.split(sep)`). -/
def splitOnCharL (sep : Char) : Chars → List Chars
  | [] => [[]]
  | c :: cs =>
    if c = sep then [] :: splitOnCharL sep cs
    else
      match splitOnCharL sep cs with
      | [] => [[c]]
      | r :: rs => (c :: r) :: rs

/-! ## Paths and lexical resolution -/

abbrev Seg := Chars

/-- An absolute, normalised filesystem path, as its list of segments
(the model of `ResolvedPath`). -/
abbrev APath := List Seg

def dotSeg : Seg := [ '.' ]

def dotDotSeg : Seg := [ '.', '.' ]

/-- One step of lexical path normalisation: `.` and empty segments are
dropped, `..` removes the last segment (at the root it is a no-op, as in
POSIX resolution), anything else is appended. -/
def normStep (acc : APath) (s : Seg) : APath :=
  if s = ([] : Seg) ∨ s = dotSeg then acc
  else if s = dotDotSeg then acc.dropLast
  else acc ++ [s]

def resolveFrom (start : APath) (parts : List Seg) : APath :=
  parts.foldl normStep start

/-- Model of `pathlib.Path(p).resolve()` over a symlink-free tree: an
absolute input is normalised from the root, a relative one from the current
working directory `cwd`. -/
def resolvePath (cwd : APath) (p : Chars) : APath :=
  match p with
  | '/' :: rest => resolveFrom [] (splitOnCharL '/' rest)
  | _ => resolveFrom cwd (splitOnCharL '/' p)

/-- Rendering of a resolved path back to a string, as `str(path)` does
(the root alone renders as "/"). -/
def pathStr (p : APath) : Chars :=
  match p with
  | [] => [ '/' ]
  | s :: rest => '/' :: s ++ pathStr rest

/-! ## Errors (model of `fastapi.HTTPException`) -/

structure Err where
  status : Nat
  detail : String
deriving DecidableEq, Repr

/-! ## Configuration (`app/config.py`) -/

namespace Config

/-- `DATA_DIR = Path("/data")` as a resolved path. -/
def DATA_DIR : APath := [strChars "data"]

/-- `ALLOWED_DIRS = [DATA_DIR]`. -/
def ALLOWED_DIRS : List APath := [DATA_DIR]

/-- `MAX_FILE_SIZE = 10 * 1024 * 1024`.  Defined under the source's
"Security Configuration" heading; no other source file references it. -/
def MAX_FILE_SIZE : Nat := 10 * 1024 * 1024

end Config

/-! ## Sandboxed path validation (`app/utils/security.py`) -/

namespace Security

/-- `allowed_dir in path.parents`: the parents of a resolved absolute path
are exactly its strict prefixes, so membership is the strict-prefix test. -/
def inParents (a r : APath) : Bool := a.isPrefixOf r && a != r

/-- The error produced when the resolved path has no allowed directory among
its parents.  The `HTTPException` raised inside the `try` block is caught by
the function's own `except Exception` clause and re-raised with its text
embedded in a new 400 detail, which is reflected in the detail string here. -/
def accessDeniedOutside : Err :=
  ⟨400, "Invalid path: 400: Access denied: Path outside allowed directories"⟩

/-- The error produced by the (post-resolution) traversal check, wrapped by
the same `except Exception` clause. -/
def accessDeniedTraversal : Err :=
  ⟨400, "Invalid path: 400: Access denied: Invalid path"⟩

/-- Embedding of `validate_path` from `app/utils/security.py`:
resolve the input, require some allowed directory strictly above the
result, then check the **resolved** string for a ".." substring.  Note the
source performs the ".." check after `Path(path).resolve()`, so it runs on
the already-normalised path. -/
def validate_path (cwd : APath) (p : String) : Except Err APath :=
  let r := resolvePath cwd (strChars p)
  if !(Config.ALLOWED_DIRS.any fun a => inParents a r) then
    Except.error accessDeniedOutside
  else if containsSubL (strChars "..") (pathStr r) then
    Except.error accessDeniedTraversal
  else
    Except.ok r

/-- Embedding of `ensure_data_dir`: prepend `DATA_DIR` when the textual path
does not start with "/data" (`DATA_DIR / path` keeps an absolute `path`
unchanged), then validate. -/
def ensure_data_dir (cwd : APath) (p : String) : Except Err APath :=
  let p2 : String :=
    if startsWithL (strChars "/data") (strChars p) then p
    else if startsWithL [ '/' ] (strChars p) then p
    else String.mk (strChars "/data/" ++ strChars p)
  validate_path cwd p2

end Security

/-! ## Filesystem model -/

/-- The filesystem: an association list from resolved paths to contents.
`fsInsert` prepends, so the newest write shadows earlier ones. -/
abbrev Fs := List (APath × String)

def lookupFs (fs : Fs) (p : APath) : Option String :=
  match fs with
  | [] => none
  | (q, c) :: rest => if q = p then some c else lookupFs rest p

def fsInsert (fs : Fs) (p : APath) (c : String) : Fs := (p, c) :: fs

theorem lookupFs_insert (fs : Fs) (p : APath) (c : String) :
    lookupFs (fsInsert fs p c) p = some c := by
  simp [lookupFs, fsInsert]

/-! ## Storage accessor, text layer (`app/utils/file_ops.py`) -/

namespace FileOps

/-- Embedding of `file_ops.read_file`: validate, then read; a missing file is
a 404.  No size check appears anywhere in the source function. -/
def read_file (cwd : APath) (fs : Fs) (p : String) : Except Err String :=
  match Security.validate_path cwd p with
  | Except.error e => Except.error e
  | Except.ok rp =>
    match lookupFs fs rp with
    | none => Except.error ⟨404, "File not found"⟩
    | some c => Except.ok c

/-- Embedding of `file_ops.write_file`: route through `ensure_data_dir`,
create intermediate directories (implicit in this model), then write.  No
size check appears anywhere in the source function. -/
def write_file (cwd : APath) (fs : Fs) (p : String) (content : String) :
    Except Err Fs :=
  match Security.ensure_data_dir cwd p with
  | Except.error e => Except.error e
  | Except.ok rp => Except.ok (fsInsert fs rp content)

end FileOps

/-! ## The `/read` endpoint (`app/main.py`, `read_file`) -/

namespace MainApp

/-- Embedding of the GET `/read` endpoint from `app/main.py`: a plain
`startswith("/data/")` test on the raw string, then `Path(path)` is handed
to `exists()`/`open()` directly — the operating system resolves `..`
segments at open time, which the model reflects with `resolvePath`.  The
endpoint never calls `validate_path`. -/
def read_endpoint (cwd : APath) (fs : Fs) (p : String) : Except Err String :=
  if !(startsWithL (strChars "/data/") (strChars p)) then
    Except.error ⟨400, "Access denied"⟩
  else
    match lookupFs fs (resolvePath cwd (strChars p)) with
    | none => Except.error ⟨404, ""⟩
    | some c => Except.ok c

end MainApp

/-! ## JSON values

Model of the JSON data handled by `json.dumps(·, indent=2)` and
`json.loads` in `app/utils/file_ops.py`.  Objects and arrays are mutually
inductive with the value type to keep all recursion structural.  Numbers
are modelled as integers (floating-point values are outside the scope of
the embedding); strings are Lean strings, i.e. sequences of Unicode scalar
values. -/

mutual
inductive Json where
  | null
  | bool (b : Bool)
  | num (n : Int)
  | str (s : String)
  | arr (xs : JList)
  | obj (kvs : JObj)

inductive JList where
  | nil
  | cons (hd : Json) (tl : JList)

inductive JObj where
  | nil
  | cons (k : String) (v : Json) (tl : JObj)
end

/-! Structural size of a JSON value, used to bound parser fuel. -/

mutual
def jsize : Json → Nat
  | .null => 1
  | .bool _ => 1
  | .num _ => 1
  | .str _ => 1
  | .arr xs => 2 + jsizeL xs
  | .obj kvs => 2 + jsizeO kvs
termination_by structural j => j

def jsizeL : JList → Nat
  | .nil => 0
  | .cons x xs => 1 + jsize x + jsizeL xs
termination_by structural xs => xs

def jsizeO : JObj → Nat
  | .nil => 0
  | .cons _ v xs => 1 + jsize v + jsizeO xs
termination_by structural xs => xs
end

/-! ### Serialisation (`json.dumps(data, indent=2)`) -/

/-- Lower-case hexadecimal digit, as CPython's `\uXXXX` escapes emit. -/
def hexDigitChar (n : Nat) : Char :=
  if n < 10 then Char.ofNat (48 + n) else Char.ofNat (87 + n)

/-- Four-digit hexadecimal rendering of `n < 0x10000`. -/
def hex4 (n : Nat) : Chars :=
  [hexDigitChar (n / 4096 % 16), hexDigitChar (n / 256 % 16),
   hexDigitChar (n / 16 % 16), hexDigitChar (n % 16)]

/-- Escaping of one character, following `json.dumps` with its default
`ensure_ascii=True`: short escapes for the two specials and the five control
characters that have them, printable ASCII verbatim, and `\uXXXX` (with
surrogate pairs above `0xFFFF`) for everything else. -/
def encChar (c : Char) : Chars :=
  if c = '"' then [ '\\', '"' ]
  else if c = '\\' then [ '\\', '\\' ]
  else if c = '\n' then [ '\\', 'n' ]
  else if c = '\t' then [ '\\', 't' ]
  else if c = '\r' then [ '\\', 'r' ]
  else if c = '\x08' then [ '\\', 'b' ]
  else if c = '\x0c' then [ '\\', 'f' ]
  else if 0x20 ≤ c.toNat ∧ c.toNat ≤ 0x7e then [c]
  else if c.toNat < 0x10000 then '\\' :: 'u' :: hex4 c.toNat
  else
    '\\' :: 'u' :: hex4 (0xd800 + (c.toNat - 0x10000) / 0x400) ++
      '\\' :: 'u' :: hex4 (0xdc00 + (c.toNat - 0x10000) % 0x400)

def encStr : Chars → Chars
  | [] => []
  | c :: cs => encChar c ++ encStr cs

/-- Decimal digits of `n`, least significant first (`fuel` bounds the
recursion; any `fuel > n` is exact). -/
def natDigitsAux : Nat → Nat → Chars
  | 0, _ => []
  | fuel + 1, n =>
    if n = 0 then [] else Char.ofNat (48 + n % 10) :: natDigitsAux fuel (n / 10)

/-- Decimal rendering of a natural number, as Python `str`. -/
def natChars (n : Nat) : Chars :=
  if n = 0 then [ '0' ] else (natDigitsAux (n + 1) n).reverse

/-- Decimal rendering of an integer, as Python `str`. -/
def encInt (n : Int) : Chars :=
  if n < 0 then '-' :: natChars n.natAbs else natChars n.natAbs

/-- The newline-plus-indent emitted between items at nesting level `lvl`
(`indent=2`). -/
def nlIndent (lvl : Nat) : Chars := '\n' :: List.replicate (2 * lvl) ' '

/-! Serialiser for `json.dumps(·, indent=2)`: empty containers render as
two bracket characters; non-empty ones put every item on its own indented
line, keys separated from values by ": " and items by ",". -/

mutual
def encVal : Json → Nat → Chars
  | .null, _ => [ 'n', 'u', 'l', 'l' ]
  | .bool true, _ => [ 't', 'r', 'u', 'e' ]
  | .bool false, _ => [ 'f', 'a', 'l', 's', 'e' ]
  | .num n, _ => encInt n
  | .str s, _ => '"' :: (encStr s.data ++ [ '"' ])
  | .arr .nil, _ => [ '[', ']' ]
  | .arr (.cons x xs), lvl =>
    '[' :: (nlIndent (lvl + 1) ++ encVal x (lvl + 1) ++ encItems xs (lvl + 1) ++
      nlIndent lvl ++ [ ']' ])
  | .obj .nil, _ => [ '{', '}' ]
  | .obj (.cons k v kvs), lvl =>
    '{' :: (nlIndent (lvl + 1) ++
      ('"' :: (encStr k.data ++ '"' :: ':' :: ' ' :: encVal v (lvl + 1))) ++
      encFields kvs (lvl + 1) ++ nlIndent lvl ++ [ '}' ])
termination_by structural j _lvl => j

def encItems : JList → Nat → Chars
  | .nil, _ => []
  | .cons x xs, lvl => ',' :: (nlIndent lvl ++ encVal x lvl ++ encItems xs lvl)
termination_by structural xs _lvl => xs

def encFields : JObj → Nat → Chars
  | .nil, _ => []
  | .cons k v kvs, lvl =>
    ',' :: (nlIndent lvl ++
      ('"' :: (encStr k.data ++ '"' :: ':' :: ' ' :: encVal v lvl)) ++
      encFields kvs lvl)
termination_by structural kvs _lvl => kvs
end

/-- The rendering of one object entry (key, ": ", value); the mutual
serialiser above emits exactly this shape inline. -/
def encKV (k : String) (v : Json) (lvl : Nat) : Chars :=
  '"' :: (encStr k.data ++ '"' :: ':' :: ' ' :: encVal v lvl)

def jsonDumps (r : Json) : String := String.mk (encVal r 0)

/-! ### Parsing (`json.loads`) -/

def skipWs : Chars → Chars
  | [] => []
  | c :: cs => if isWsChar c then skipWs cs else c :: cs

def hexVal (c : Char) : Option Nat :=
  if 48 ≤ c.toNat ∧ c.toNat ≤ 57 then some (c.toNat - 48)
  else if 97 ≤ c.toNat ∧ c.toNat ≤ 102 then some (c.toNat - 87)
  else if 65 ≤ c.toNat ∧ c.toNat ≤ 70 then some (c.toNat - 55)
  else none

def parseHex4 : Chars → Option (Nat × Chars)
  | a :: b :: c :: d :: rest =>
    match hexVal a, hexVal b, hexVal c, hexVal d with
    | some x, some y, some z, some w => some (4096 * x + 256 * y + 16 * z + w, rest)
    | _, _, _, _ => none
  | _ => none

/-- String-body scanner of the JSON decoder (strict mode): consume decoded
characters until the closing quote.  `\uXXXX` escapes are decoded with
surrogate-pair combination exactly as CPython's `py_scanstring`; a lone
surrogate (which CPython would keep as a lone-surrogate code unit) has no
Lean `Char` representation and is rejected — the serialiser never produces
one.  Raw control characters are rejected (strict mode). -/
def pStrBody : Nat → Chars → Option (Chars × Chars)
  | 0, _ => none
  | fuel + 1, cs =>
    match cs with
    | [] => none
    | c :: rest =>
      if c = '"' then some ([], rest)
      else if c = '\\' then
        match rest with
        | '"' :: r => (pStrBody fuel r).map fun p => ( '"' :: p.1, p.2)
        | '\\' :: r => (pStrBody fuel r).map fun p => ( '\\' :: p.1, p.2)
        | '/' :: r => (pStrBody fuel r).map fun p => ( '/' :: p.1, p.2)
        | 'n' :: r => (pStrBody fuel r).map fun p => ( '\n' :: p.1, p.2)
        | 't' :: r => (pStrBody fuel r).map fun p => ( '\t' :: p.1, p.2)
        | 'r' :: r => (pStrBody fuel r).map fun p => ( '\r' :: p.1, p.2)
        | 'b' :: r => (pStrBody fuel r).map fun p => ( '\x08' :: p.1, p.2)
        | 'f' :: r => (pStrBody fuel r).map fun p => ( '\x0c' :: p.1, p.2)
        | 'u' :: r =>
          match parseHex4 r with
          | none => none
          | some (n, r2) =>
            if 0xd800 ≤ n ∧ n ≤ 0xdbff then
              match r2 with
              | '\\' :: 'u' :: r3 =>
                match parseHex4 r3 with
                | none => none
                | some (m, r4) =>
                  if 0xdc00 ≤ m ∧ m ≤ 0xdfff then
                    (pStrBody fuel r4).map fun p =>
                      (Char.ofNat (0x10000 + (n - 0xd800) * 0x400 + (m - 0xdc00)) :: p.1, p.2)
                  else none
              | _ => none
            else if 0xdc00 ≤ n ∧ n ≤ 0xdfff then none
            else (pStrBody fuel r2).map fun p => (Char.ofNat n :: p.1, p.2)
        | _ => none
      else if c.toNat < 0x20 then none
      else (pStrBody fuel rest).map fun p => (c :: p.1, p.2)

def digitVal (c : Char) : Option Nat :=
  if 48 ≤ c.toNat ∧ c.toNat ≤ 57 then some (c.toNat - 48) else none

/-- Consume a maximal run of decimal digits, folding them onto `acc`. -/
def pNatAux : Chars → Nat → Nat × Chars
  | [], acc => (acc, [])
  | c :: cs, acc =>
    match digitVal c with
    | some d => pNatAux cs (10 * acc + d)
    | none => (acc, c :: cs)

/-- Integer literal scanner (the model restricts JSON numbers to integers;
fraction/exponent forms are outside the embedding's number domain). -/
def pInt : Chars → Option (Int × Chars)
  | [] => none
  | c :: cs =>
    if c = '-' then
      if ((cs.head?).bind digitVal).isSome then
        some (-(((pNatAux cs 0).1 : Nat) : Int), (pNatAux cs 0).2)
      else none
    else if (digitVal c).isSome then
      some ((((pNatAux (c :: cs) 0).1 : Nat) : Int), (pNatAux (c :: cs) 0).2)
    else none

/-- Classification of a JSON value by its first character, mirroring the
decoder's dispatch. -/
inductive HeadKind where
  | hNull | hTrue | hFalse | hStr | hArr | hObj | hNum | hBad
deriving DecidableEq, Repr

def headKind (c : Char) : HeadKind :=
  if c = 'n' then .hNull
  else if c = 't' then .hTrue
  else if c = 'f' then .hFalse
  else if c = '"' then .hStr
  else if c = '[' then .hArr
  else if c = '{' then .hObj
  else if c = '-' ∨ (48 ≤ c.toNat ∧ c.toNat ≤ 57) then .hNum
  else .hBad

/-! Recursive-descent value scanner with explicit fuel (any fuel at least
the structural size of the encoded value is exact).  Mirrors the scanner of
the `json` module: whitespace is skipped before values and around the
structural tokens. -/

mutual
def pVal : Nat → Chars → Option (Json × Chars)
  | 0, _ => none
  | fuel + 1, cs0 =>
    match skipWs cs0 with
    | [] => none
    | c :: cs =>
      match headKind c with
      | .hNull =>
        match cs with
        | 'u' :: 'l' :: 'l' :: r => some (.null, r)
        | _ => none
      | .hTrue =>
        match cs with
        | 'r' :: 'u' :: 'e' :: r => some (.bool true, r)
        | _ => none
      | .hFalse =>
        match cs with
        | 'a' :: 'l' :: 's' :: 'e' :: r => some (.bool false, r)
        | _ => none
      | .hStr =>
        (pStrBody (cs.length + 1) cs).map fun p => (.str (String.mk p.1), p.2)
      | .hArr =>
        match skipWs cs with
        | [] => none
        | d :: r2 =>
          if d = ']' then some (.arr .nil, r2)
          else
            match pVal fuel (d :: r2) with
            | none => none
            | some (v, r3) =>
              (pItemsRest fuel r3).map fun p => (.arr (.cons v p.1), p.2)
      | .hObj =>
        match skipWs cs with
        | '}' :: r2 => some (.obj .nil, r2)
        | '"' :: r2 =>
          match pStrBody (r2.length + 1) r2 with
          | none => none
          | some (k, r3) =>
            match skipWs r3 with
            | ':' :: r4 =>
              match pVal fuel r4 with
              | none => none
              | some (v, r5) =>
                (pFieldsRest fuel r5).map fun p =>
                  (.obj (.cons (String.mk k) v p.1), p.2)
            | _ => none
        | _ => none
      | .hNum =>
        (pInt (c :: cs)).map fun p => (.num p.1, p.2)
      | .hBad => none
termination_by structural fuel _cs => fuel

def pItemsRest : Nat → Chars → Option (JList × Chars)
  | 0, _ => none
  | fuel + 1, cs =>
    match skipWs cs with
    | ',' :: r =>
      match pVal fuel r with
      | none => none
      | some (v, r2) => (pItemsRest fuel r2).map fun p => (.cons v p.1, p.2)
    | ']' :: r => some (.nil, r)
    | _ => none
termination_by structural fuel _cs => fuel

def pFieldsRest : Nat → Chars → Option (JObj × Chars)
  | 0, _ => none
  | fuel + 1, cs =>
    match skipWs cs with
    | ',' :: r =>
      match skipWs r with
      | '"' :: r2 =>
        match pStrBody (r2.length + 1) r2 with
        | none => none
        | some (k, r3) =>
          match skipWs r3 with
          | ':' :: r4 =>
            match pVal fuel r4 with
            | none => none
            | some (v, r5) =>
              (pFieldsRest fuel r5).map fun p => (.cons (String.mk k) v p.1, p.2)
          | _ => none
      | _ => none
    | '}' :: r => some (.nil, r)
    | _ => none
termination_by structural fuel _cs => fuel
end

/-- Model of `json.loads`: scan one value, then require only whitespace
to remain. -/
def jsonLoads (s : String) : Option Json :=
  match pVal (s.data.length + 1) s.data with
  | some (v, rest) => if skipWs rest = [] then some v else none
  | none => none

/-! ### Support lemmas for the round-trip proof -/

theorem charToNat_ofNat {n : Nat} (h : n.isValidChar) : (Char.ofNat n).toNat = n := by
  simp [Char.ofNat, h, Char.ofNatAux, Char.toNat, UInt32.toNat, UInt32.ofNat']

theorem char_ofNat_toNat (c : Char) : Char.ofNat c.toNat = c := by
  apply Char.ext
  exact UInt32.ext (charToNat_ofNat c.valid)

theorem skipWs_cons_not {c : Char} (cs : Chars) (h : isWsChar c = false) :
    skipWs (c :: cs) = c :: cs := by
  simp [skipWs, h]

theorem skipWs_append_ws (ws z : Chars) (h : ∀ c ∈ ws, isWsChar c = true) :
    skipWs (ws ++ z) = skipWs z := by
  induction ws with
  | nil => rfl
  | cons c cs ih =>
    simp only [List.cons_append, skipWs, h c (List.mem_cons_self c cs)]
    simp only [if_true]
    exact ih fun d hd => h d (List.mem_cons_of_mem c hd)

theorem nlIndent_ws (lvl : Nat) : ∀ c ∈ nlIndent lvl, isWsChar c = true := by
  intro c hc
  simp only [nlIndent, List.mem_cons] at hc
  rcases hc with h | h
  · subst h; rfl
  · have := List.eq_of_mem_replicate h
    subst this; rfl

theorem skipWs_nlIndent (lvl : Nat) (z : Chars) :
    skipWs (nlIndent lvl ++ z) = skipWs z :=
  skipWs_append_ws _ _ (nlIndent_ws lvl)

theorem hexVal_hexDigitChar {d : Nat} (h : d < 16) : hexVal (hexDigitChar d) = some d := by
  unfold hexDigitChar
  by_cases h10 : d < 10
  · rw [if_pos h10]
    have hv : (48 + d).isValidChar := Or.inl (by omega)
    unfold hexVal
    rw [charToNat_ofNat hv, if_pos (by omega)]
    have : 48 + d - 48 = d := by omega
    rw [this]
  · rw [if_neg h10]
    have hv : (87 + d).isValidChar := Or.inl (by omega)
    unfold hexVal
    rw [charToNat_ofNat hv, if_neg (by omega), if_pos (by omega)]
    have : 87 + d - 87 = d := by omega
    rw [this]

theorem parseHex4_hex4 {n : Nat} (h : n < 65536) (rest : Chars) :
    parseHex4 (hex4 n ++ rest) = some (n, rest) := by
  have h1 : n / 4096 % 16 < 16 := Nat.mod_lt _ (by omega)
  have h2 : n / 256 % 16 < 16 := Nat.mod_lt _ (by omega)
  have h3 : n / 16 % 16 < 16 := Nat.mod_lt _ (by omega)
  have h4 : n % 16 < 16 := Nat.mod_lt _ (by omega)
  simp only [hex4, List.cons_append, List.nil_append, parseHex4,
    hexVal_hexDigitChar h1, hexVal_hexDigitChar h2, hexVal_hexDigitChar h3,
    hexVal_hexDigitChar h4]
  have : 4096 * (n / 4096 % 16) + 256 * (n / 256 % 16) + 16 * (n / 16 % 16) + n % 16 = n := by
    omega
  rw [this]

theorem encChar_length_pos (c : Char) : 1 ≤ (encChar c).length := by
  unfold encChar
  split_ifs <;> simp [hex4]

theorem encStr_length (cs : Chars) : cs.length ≤ (encStr cs).length := by
  induction cs with
  | nil => simp [encStr]
  | cons c cs ih =>
    have := encChar_length_pos c
    simp only [encStr, List.length_append, List.length_cons]
    omega

set_option maxHeartbeats 2000000 in
theorem pStrBody_encStr (cs : Chars) : ∀ fuel rest, cs.length < fuel →
    pStrBody fuel (encStr cs ++ '"' :: rest) = some (cs, rest) := by
  induction cs with
  | nil =>
    intro fuel rest h
    obtain ⟨f, rfl⟩ : ∃ f, fuel = f + 1 := ⟨fuel - 1, by omega⟩
    simp [encStr, pStrBody]
  | cons c cs ih =>
    intro fuel rest h
    obtain ⟨f, rfl⟩ : ∃ f, fuel = f + 1 := ⟨fuel - 1, by omega⟩
    have hf : cs.length < f := by
      simp only [List.length_cons] at h; omega
    show pStrBody (f + 1) ((encChar c ++ encStr cs) ++ '"' :: rest) = _
    rw [List.append_assoc]
    unfold encChar
    split_ifs with h1 h2 h3 h4 h5 h6 h7 h8 h9
    · subst h1; simp [pStrBody, ih f rest hf]
    · subst h2; simp [pStrBody, ih f rest hf]
    · subst h3; simp [pStrBody, ih f rest hf]
    · subst h4; simp [pStrBody, ih f rest hf]
    · subst h5; simp [pStrBody, ih f rest hf]
    · subst h6; simp [pStrBody, ih f rest hf]
    · subst h7; simp [pStrBody, ih f rest hf]
    · -- printable ASCII, not a special: taken verbatim
      show pStrBody (f + 1) (c :: (encStr cs ++ '"' :: rest)) = _
      have h20 : ¬ c.toNat < 32 := by omega
      unfold pStrBody
      simp only [if_neg h1, if_neg h2, if_neg h20]
      simp [ih f rest hf]
    · -- single \uXXXX escape
      show pStrBody (f + 1) ( '\\' :: 'u' :: (hex4 c.toNat ++ (encStr cs ++ '"' :: rest))) = _
      have hval : c.toNat < 0xd800 ∨ (0xdfff < c.toNat ∧ c.toNat < 0x110000) := c.valid
      have hns : ¬ (0xd800 ≤ c.toNat ∧ c.toNat ≤ 0xdbff) := by
        rcases hval with hv | hv <;> omega
      have hns2 : ¬ (0xdc00 ≤ c.toNat ∧ c.toNat ≤ 0xdfff) := by
        rcases hval with hv | hv <;> omega
      unfold pStrBody
      simp only [reduceIte, parseHex4_hex4 h9, if_neg hns, if_neg hns2]
      simp [ih f rest hf, char_ofNat_toNat]
    · -- astral plane: surrogate pair
      have hval : c.toNat < 0xd800 ∨ (0xdfff < c.toNat ∧ c.toNat < 0x110000) := c.valid
      have hge : 0x10000 ≤ c.toNat := by omega
      have hlt : c.toNat < 0x110000 := by rcases hval with hv | hv <;> omega
      show pStrBody (f + 1)
        ( '\\' :: 'u' :: ((hex4 (0xd800 + (c.toNat - 0x10000) / 0x400) ++
          '\\' :: 'u' :: hex4 (0xdc00 + (c.toNat - 0x10000) % 0x400)) ++
            (encStr cs ++ '"' :: rest))) = _
      rw [List.append_assoc]
      have hhi : 0xd800 + (c.toNat - 0x10000) / 0x400 < 65536 := by omega
      have hlo : 0xdc00 + (c.toNat - 0x10000) % 0x400 < 65536 := by omega
      have hsur1 : 0xd800 ≤ 0xd800 + (c.toNat - 0x10000) / 0x400 ∧
          0xd800 + (c.toNat - 0x10000) / 0x400 ≤ 0xdbff := by omega
      have hsur2 : 0xdc00 ≤ 0xdc00 + (c.toNat - 0x10000) % 0x400 ∧
          0xdc00 + (c.toNat - 0x10000) % 0x400 ≤ 0xdfff := by omega
      have harith : 0x10000 + (0xd800 + (c.toNat - 0x10000) / 0x400 - 0xd800) * 0x400 +
          (0xdc00 + (c.toNat - 0x10000) % 0x400 - 0xdc00) = c.toNat := by omega
      unfold pStrBody
      simp only [reduceIte, parseHex4_hex4 hhi, if_pos hsur1, List.cons_append,
        parseHex4_hex4 hlo, if_pos hsur2, harith, char_ofNat_toNat]
      simp [ih f rest hf]

/-! ### Number round trip -/

/-- Value of a digit list, least significant first. -/
def revVal : Chars → Nat
  | [] => 0
  | c :: cs => (c.toNat - 48) + 10 * revVal cs

theorem natDigitsAux_digits :
    ∀ fuel n, ∀ c ∈ natDigitsAux fuel n, 48 ≤ c.toNat ∧ c.toNat ≤ 57 := by
  intro fuel
  induction fuel with
  | zero => intro n c hc; simp [natDigitsAux] at hc
  | succ f ih =>
    intro n c hc
    by_cases h0 : n = 0
    · simp [natDigitsAux, h0] at hc
    · simp only [natDigitsAux, if_neg h0, List.mem_cons] at hc
      rcases hc with h | h
      · subst h
        rw [charToNat_ofNat (Or.inl (by omega))]
        omega
      · exact ih _ c h

theorem natDigitsAux_revVal : ∀ fuel n, n < fuel → revVal (natDigitsAux fuel n) = n := by
  intro fuel
  induction fuel with
  | zero => omega
  | succ f ih =>
    intro n h
    by_cases h0 : n = 0
    · simp [natDigitsAux, h0, revVal]
    · have h10 : n / 10 < f := by omega
      simp only [natDigitsAux, if_neg h0, revVal, ih _ h10,
        charToNat_ofNat (Or.inl (by omega : 48 + n % 10 < 0xd800))]
      omega

/-- The input after a serialised number never starts with a digit
(so the scanner stops exactly at the number's end). -/
def headNotDigit : Chars → Prop
  | [] => True
  | c :: _ => digitVal c = none

theorem pNatAux_stop (rest : Chars) (acc : Nat) (h : headNotDigit rest) :
    pNatAux rest acc = (acc, rest) := by
  cases rest with
  | nil => rfl
  | cons c cs =>
    simp only [headNotDigit] at h
    simp [pNatAux, h]

theorem pNatAux_append (ds : Chars) :
    ∀ acc rest, (∀ c ∈ ds, 48 ≤ c.toNat ∧ c.toNat ≤ 57) → headNotDigit rest →
    pNatAux (ds ++ rest) acc =
      (List.foldl (fun a c => 10 * a + (c.toNat - 48)) acc ds, rest) := by
  induction ds with
  | nil =>
    intro acc rest _ hrest
    simpa using pNatAux_stop rest acc hrest
  | cons d ds ih =>
    intro acc rest hds hrest
    have hd := hds d (List.mem_cons_self d ds)
    have hdv : digitVal d = some (d.toNat - 48) := by
      simp [digitVal, hd]
    simp only [List.cons_append, pNatAux, hdv, List.foldl_cons]
    exact ih _ rest (fun c hc => hds c (List.mem_cons_of_mem d hc)) hrest

theorem foldl_reverse_revVal (rds : Chars) :
    ∀ acc, List.foldl (fun a c => 10 * a + (c.toNat - 48)) acc rds.reverse =
      acc * 10 ^ rds.length + revVal rds := by
  induction rds with
  | nil => intro acc; simp [revVal]
  | cons c cs ih =>
    intro acc
    simp only [List.reverse_cons, List.foldl_append, List.foldl_cons, List.foldl_nil,
      ih acc, revVal, List.length_cons, pow_succ]
    ring

theorem natChars_digits (n : Nat) : ∀ c ∈ natChars n, 48 ≤ c.toNat ∧ c.toNat ≤ 57 := by
  intro c hc
  unfold natChars at hc
  by_cases h0 : n = 0
  · rw [if_pos h0] at hc
    simp at hc
    subst hc; decide
  · rw [if_neg h0] at hc
    exact natDigitsAux_digits (n + 1) n c (List.mem_reverse.mp hc)

theorem pNatAux_natChars (n : Nat) (rest : Chars) (hrest : headNotDigit rest) :
    pNatAux (natChars n ++ rest) 0 = (n, rest) := by
  rw [pNatAux_append (natChars n) 0 rest (natChars_digits n) hrest]
  unfold natChars
  by_cases h0 : n = 0
  · simp [h0]
  · rw [if_neg h0, foldl_reverse_revVal, natDigitsAux_revVal (n + 1) n (by omega)]
    simp

theorem natChars_shape (n : Nat) :
    ∃ d tl, natChars n = d :: tl ∧ 48 ≤ d.toNat ∧ d.toNat ≤ 57 := by
  rcases h : natChars n with _ | ⟨d, tl⟩
  · exfalso
    unfold natChars at h
    by_cases h0 : n = 0
    · rw [if_pos h0] at h; simp at h
    · rw [if_neg h0] at h
      have : natDigitsAux (n + 1) n ≠ [] := by
        simp [natDigitsAux, h0]
      simp [List.reverse_eq_nil_iff] at h
      exact this h
  · exact ⟨d, tl, rfl, (natChars_digits n d (by rw [h]; exact List.mem_cons_self d tl))⟩

theorem pInt_encInt (n : Int) (rest : Chars) (h : headNotDigit rest) :
    pInt (encInt n ++ rest) = some (n, rest) := by
  obtain ⟨d, tl, hshape, hd1, hd2⟩ := natChars_shape n.natAbs
  have hdv : digitVal d = some (d.toNat - 48) := by simp [digitVal, hd1, hd2]
  unfold encInt
  by_cases hneg : n < 0
  · rw [if_pos hneg]
    show pInt ( '-' :: (natChars n.natAbs ++ rest)) = _
    simp only [pInt, reduceIte]
    rw [show (natChars n.natAbs ++ rest).head? = some d from by rw [hshape]; rfl]
    rw [show (some d).bind digitVal = digitVal d from rfl, hdv]
    simp only [Option.isSome_some, if_pos]
    rw [pNatAux_natChars n.natAbs rest h]
    have : -((n.natAbs : Nat) : Int) = n := by omega
    rw [this]
  · rw [if_neg hneg]
    have hnd : ¬ d = '-' := by
      intro hh
      rw [hh] at hd1
      exact absurd hd1 (by decide)
    rw [show natChars n.natAbs ++ rest = d :: (tl ++ rest) from by rw [hshape]; rfl]
    simp only [pInt]
    rw [if_neg hnd, hdv]
    simp only [Option.isSome_some, if_pos]
    rw [show d :: (tl ++ rest) = natChars n.natAbs ++ rest from by rw [hshape]; rfl]
    rw [pNatAux_natChars n.natAbs rest h]
    have : ((n.natAbs : Nat) : Int) = n := by omega
    rw [this]

/-! ### Head-shape and size lemmas for the serialiser -/

theorem string_mk_data (s : String) : String.mk s.data = s := rfl

theorem isWsChar_digit_false {d : Char} (hd1 : 48 ≤ d.toNat) (hd2 : d.toNat ≤ 57) :
    isWsChar d = false := by
  simp only [isWsChar, Bool.or_eq_false_iff]
  refine ⟨⟨⟨?_, ?_⟩, ?_⟩, ?_⟩ <;>
    · rw [beq_eq_false_iff_ne]
      rintro rfl
      revert hd1 hd2
      decide

theorem headKind_digit {d : Char} (hd1 : 48 ≤ d.toNat) (hd2 : d.toNat ≤ 57) :
    headKind d = .hNum := by
  have hne : ∀ c0 : Char, d.toNat ≠ c0.toNat → ¬ d = c0 := by
    rintro c0 hno rfl; exact hno rfl
  unfold headKind
  rw [if_neg (hne 'n' (by intro hh; rw [hh] at hd1 hd2; revert hd1 hd2; decide)),
    if_neg (hne 't' (by intro hh; rw [hh] at hd1 hd2; revert hd1 hd2; decide)),
    if_neg (hne 'f' (by intro hh; rw [hh] at hd1 hd2; revert hd1 hd2; decide)),
    if_neg (hne '"' (by intro hh; rw [hh] at hd1 hd2; revert hd1 hd2; decide)),
    if_neg (hne '[' (by intro hh; rw [hh] at hd1 hd2; revert hd1 hd2; decide)),
    if_neg (hne '{' (by intro hh; rw [hh] at hd1 hd2; revert hd1 hd2; decide)),
    if_pos (Or.inr ⟨hd1, hd2⟩)]

theorem not_eq_of_toNat {d c0 : Char} (h : d.toNat ≠ c0.toNat) : ¬ d = c0 := by
  rintro rfl; exact h rfl

/-- Head character of every serialised value: never whitespace and never a
closing bracket. -/
theorem encVal_head (v : Json) (lvl : Nat) :
    ∃ c cs2, encVal v lvl = c :: cs2 ∧ isWsChar c = false ∧ ¬ c = ']' := by
  cases v with
  | null => exact ⟨'n', _, rfl, by decide, by decide⟩
  | bool b =>
    cases b with
    | false => exact ⟨'f', _, rfl, by decide, by decide⟩
    | true => exact ⟨'t', _, rfl, by decide, by decide⟩
  | num n =>
    show ∃ c cs2, encInt n = c :: cs2 ∧ _
    unfold encInt
    by_cases hneg : n < 0
    · rw [if_pos hneg]
      exact ⟨'-', _, rfl, by decide, by decide⟩
    · rw [if_neg hneg]
      obtain ⟨d, tl, hshape, hd1, hd2⟩ := natChars_shape n.natAbs
      rw [hshape]
      refine ⟨d, tl, rfl, isWsChar_digit_false hd1 hd2, not_eq_of_toNat ?_⟩
      intro hh
      rw [hh] at hd1 hd2; revert hd1 hd2; decide
  | str s => exact ⟨'"', _, rfl, by decide, by decide⟩
  | arr xs => cases xs <;> exact ⟨'[', _, rfl, by decide, by decide⟩
  | obj kvs => cases kvs <;> exact ⟨'{', _, rfl, by decide, by decide⟩

theorem jsize_pos (v : Json) : 1 ≤ jsize v := by
  cases v <;> simp [jsize] <;> omega

theorem nlIndent_length (lvl : Nat) : (nlIndent lvl).length = 1 + 2 * lvl := by
  simp [nlIndent]; omega

mutual
theorem jsize_le_enc (v : Json) : ∀ lvl, jsize v ≤ (encVal v lvl).length + 1 := by
  intro lvl
  cases v with
  | null => simp [jsize, encVal, strChars]
  | bool b => cases b <;> simp [jsize, encVal, strChars]
  | num n => simp [jsize]
  | str s => simp [jsize]
  | arr xs =>
    cases xs with
    | nil => simp [jsize, jsizeL, encVal]
    | cons x xs2 =>
      have h1 := jsize_le_enc x (lvl + 1)
      have h2 := jsizeL_le_enc xs2 (lvl + 1)
      simp only [jsize, jsizeL, encVal, List.length_cons, List.length_append,
        nlIndent_length]
      omega
  | obj kvs =>
    cases kvs with
    | nil => simp [jsize, jsizeO, encVal]
    | cons k v2 kvs2 =>
      have h1 := jsize_le_enc v2 (lvl + 1)
      have h2 := jsizeO_le_enc kvs2 (lvl + 1)
      simp only [jsize, jsizeO, encVal, List.length_cons, List.length_append,
        nlIndent_length]
      omega

theorem jsizeL_le_enc (xs : JList) : ∀ lvl, jsizeL xs ≤ (encItems xs lvl).length := by
  intro lvl
  cases xs with
  | nil => simp [jsizeL, encItems]
  | cons x xs2 =>
    have h1 := jsize_le_enc x lvl
    have h2 := jsizeL_le_enc xs2 lvl
    simp only [jsizeL, encItems, List.length_cons, List.length_append, nlIndent_length]
    omega

theorem jsizeO_le_enc (kvs : JObj) : ∀ lvl, jsizeO kvs ≤ (encFields kvs lvl).length := by
  intro lvl
  cases kvs with
  | nil => simp [jsizeO, encFields]
  | cons k v kvs2 =>
    have h1 := jsize_le_enc v lvl
    have h2 := jsizeO_le_enc kvs2 lvl
    simp only [jsizeO, encFields, List.length_cons, List.length_append, nlIndent_length]
    omega
end

theorem headNotDigit_nlIndent (lvl : Nat) (z : Chars) :
    headNotDigit (nlIndent lvl ++ z) :=
  (by decide : digitVal '\n' = none)

theorem headNotDigit_encItems (xs : JList) (lvl k : Nat) (z : Chars) :
    headNotDigit (encItems xs lvl ++ (nlIndent k ++ z)) := by
  cases xs with
  | nil => exact headNotDigit_nlIndent k z
  | cons x xs2 => exact (by decide : digitVal ',' = none)

theorem headNotDigit_encFields (kvs : JObj) (lvl k : Nat) (z : Chars) :
    headNotDigit (encFields kvs lvl ++ (nlIndent k ++ z)) := by
  cases kvs with
  | nil => exact headNotDigit_nlIndent k z
  | cons hk v kvs2 => exact (by decide : digitVal ',' = none)

/-! ### The round-trip theorem: scanning a serialised value returns it -/

mutual
theorem pVal_enc (v : Json) : ∀ fuel lvl ws rest, jsize v ≤ fuel →
    (∀ c ∈ ws, isWsChar c = true) → headNotDigit rest →
    pVal fuel (ws ++ (encVal v lvl ++ rest)) = some (v, rest) := by
  intro fuel lvl ws rest hfuel hws hrest
  obtain ⟨f, rfl⟩ : ∃ f, fuel = f + 1 := ⟨fuel - 1, by have := jsize_pos v; omega⟩
  cases v with
  | null =>
    simp only [pVal, encVal, List.cons_append, List.nil_append]
    rw [skipWs_append_ws ws _ hws, skipWs_cons_not _ (by decide)]
    rfl
  | bool b =>
    cases b with
    | true =>
      simp only [pVal, encVal, List.cons_append, List.nil_append]
      rw [skipWs_append_ws ws _ hws, skipWs_cons_not _ (by decide)]
      rfl
    | false =>
      simp only [pVal, encVal, List.cons_append, List.nil_append]
      rw [skipWs_append_ws ws _ hws, skipWs_cons_not _ (by decide)]
      rfl
  | num n =>
    simp only [pVal, encVal]
    rw [skipWs_append_ws ws _ hws]
    by_cases hneg : n < 0
    · rw [show encInt n ++ rest = '-' :: (natChars n.natAbs ++ rest) from by
        simp [encInt, if_pos hneg]]
      rw [skipWs_cons_not _ (by decide)]
      simp only [show headKind '-' = HeadKind.hNum from rfl]
      rw [show '-' :: (natChars n.natAbs ++ rest) = encInt n ++ rest from by
        simp [encInt, if_pos hneg]]
      rw [pInt_encInt n rest hrest]
      rfl
    · obtain ⟨d, tl, hshape, hd1, hd2⟩ := natChars_shape n.natAbs
      rw [show encInt n ++ rest = d :: (tl ++ rest) from by
        simp [encInt, if_neg hneg, hshape]]
      rw [skipWs_cons_not _ (isWsChar_digit_false hd1 hd2)]
      simp only [headKind_digit hd1 hd2]
      rw [show d :: (tl ++ rest) = encInt n ++ rest from by
        simp [encInt, if_neg hneg, hshape]]
      rw [pInt_encInt n rest hrest]
      rfl
  | str s =>
    simp only [pVal, encVal, List.cons_append, List.append_assoc, List.singleton_append,
      List.nil_append]
    rw [skipWs_append_ws ws _ hws, skipWs_cons_not _ (by decide)]
    simp only [show headKind '"' = HeadKind.hStr from rfl]
    have hlen : s.data.length < (encStr s.data ++ '"' :: rest).length + 1 := by
      have := encStr_length s.data
      simp only [List.length_append, List.length_cons]
      omega
    rw [pStrBody_encStr s.data _ rest hlen]
    rfl
  | arr xs =>
    cases xs with
    | nil =>
      simp only [pVal, encVal, List.cons_append, List.nil_append]
      rw [skipWs_append_ws ws _ hws, skipWs_cons_not _ (by decide)]
      rfl
    | cons x xs2 =>
      have hx : jsize x ≤ f := by
        simp only [jsize, jsizeL] at hfuel ⊢
        have := jsize_pos x
        omega
      have hxs : jsizeL xs2 < f := by
        simp only [jsize, jsizeL] at hfuel
        have := jsize_pos x
        omega
      simp only [pVal, encVal, List.cons_append, List.append_assoc,
        List.singleton_append, List.nil_append]
      rw [skipWs_append_ws ws _ hws, skipWs_cons_not _ (by decide)]
      simp only [show headKind '[' = HeadKind.hArr from rfl]
      rw [skipWs_nlIndent]
      obtain ⟨c, cs2, hcv, hcns, hcnb⟩ := encVal_head x (lvl + 1)
      rw [hcv, List.cons_append, skipWs_cons_not _ hcns]
      simp only []
      rw [if_neg hcnb]
      rw [← List.cons_append, ← hcv]
      have hrest2 : headNotDigit (encItems xs2 (lvl + 1) ++ (nlIndent lvl ++ ']' :: rest)) :=
        headNotDigit_encItems xs2 (lvl + 1) lvl (']' :: rest)
      have hv := pVal_enc x f (lvl + 1) [] _ hx (by simp) hrest2
      rw [List.nil_append] at hv
      rw [hv]
      simp only []
      rw [pItemsRest_enc xs2 f lvl rest hxs]
      rfl
  | obj kvs =>
    cases kvs with
    | nil =>
      simp only [pVal, encVal, List.cons_append, List.nil_append]
      rw [skipWs_append_ws ws _ hws, skipWs_cons_not _ (by decide)]
      rfl
    | cons k v2 kvs2 =>
      have hv : jsize v2 ≤ f := by
        simp only [jsize, jsizeO] at hfuel ⊢
        have := jsize_pos v2
        omega
      have hkvs : jsizeO kvs2 < f := by
        simp only [jsize, jsizeO] at hfuel
        have := jsize_pos v2
        omega
      simp only [pVal, encVal, List.cons_append, List.append_assoc,
        List.singleton_append, List.nil_append]
      rw [skipWs_append_ws ws _ hws, skipWs_cons_not _ (by decide)]
      simp only [show headKind '{' = HeadKind.hObj from rfl]
      rw [skipWs_nlIndent, skipWs_cons_not _ (by decide)]
      simp only []
      have hlen : k.data.length <
          (encStr k.data ++ '"' :: ':' :: ' ' :: (encVal v2 (lvl + 1) ++
            (encFields kvs2 (lvl + 1) ++ (nlIndent lvl ++ '}' :: rest)))).length + 1 := by
        have := encStr_length k.data
        simp only [List.length_append, List.length_cons]
        omega
      rw [pStrBody_encStr k.data _ _ hlen]
      simp only []
      rw [skipWs_cons_not _ (by decide)]
      simp only []
      have hrest2 : headNotDigit (encFields kvs2 (lvl + 1) ++ (nlIndent lvl ++ '}' :: rest)) :=
        headNotDigit_encFields kvs2 (lvl + 1) lvl ('}' :: rest)
      have hv2 := pVal_enc v2 f (lvl + 1) [ ' ' ] _ hv (by decide) hrest2
      rw [List.cons_append, List.nil_append] at hv2
      rw [hv2]
      simp only []
      rw [pFieldsRest_enc kvs2 f lvl rest hkvs]
      simp [string_mk_data]

theorem pItemsRest_enc (xs : JList) : ∀ fuel lvl rest, jsizeL xs < fuel →
    pItemsRest fuel (encItems xs (lvl + 1) ++ (nlIndent lvl ++ ']' :: rest)) =
      some (xs, rest) := by
  intro fuel lvl rest hfuel
  obtain ⟨f, rfl⟩ : ∃ f, fuel = f + 1 := ⟨fuel - 1, by omega⟩
  cases xs with
  | nil =>
    simp only [pItemsRest, encItems, List.nil_append]
    rw [skipWs_nlIndent, skipWs_cons_not _ (by decide)]
    rfl
  | cons y ys =>
    have hy : jsize y ≤ f := by
      simp only [jsizeL] at hfuel
      have := jsize_pos y
      omega
    have hys : jsizeL ys < f := by
      simp only [jsizeL] at hfuel
      have := jsize_pos y
      omega
    simp only [pItemsRest, encItems, List.cons_append, List.append_assoc]
    rw [skipWs_cons_not _ (by decide)]
    simp only []
    have hrest2 : headNotDigit (encItems ys (lvl + 1) ++ (nlIndent lvl ++ ']' :: rest)) :=
      headNotDigit_encItems ys (lvl + 1) lvl (']' :: rest)
    have hv := pVal_enc y f (lvl + 1) (nlIndent (lvl + 1)) _ hy (nlIndent_ws (lvl + 1)) hrest2
    rw [hv]
    simp only []
    rw [pItemsRest_enc ys f lvl rest hys]
    rfl

theorem pFieldsRest_enc (kvs : JObj) : ∀ fuel lvl rest, jsizeO kvs < fuel →
    pFieldsRest fuel (encFields kvs (lvl + 1) ++ (nlIndent lvl ++ '}' :: rest)) =
      some (kvs, rest) := by
  intro fuel lvl rest hfuel
  obtain ⟨f, rfl⟩ : ∃ f, fuel = f + 1 := ⟨fuel - 1, by omega⟩
  cases kvs with
  | nil =>
    simp only [pFieldsRest, encFields, List.nil_append]
    rw [skipWs_nlIndent, skipWs_cons_not _ (by decide)]
    rfl
  | cons k v kvs2 =>
    have hv : jsize v ≤ f := by
      simp only [jsizeO] at hfuel
      have := jsize_pos v
      omega
    have hkvs : jsizeO kvs2 < f := by
      simp only [jsizeO] at hfuel
      have := jsize_pos v
      omega
    simp only [pFieldsRest, encFields, List.cons_append, List.append_assoc]
    rw [skipWs_cons_not _ (by decide)]
    simp only []
    rw [skipWs_nlIndent, skipWs_cons_not _ (by decide)]
    simp only []
    have hlen : k.data.length <
        (encStr k.data ++ '"' :: ':' :: ' ' :: (encVal v (lvl + 1) ++
          (encFields kvs2 (lvl + 1) ++ (nlIndent lvl ++ '}' :: rest)))).length + 1 := by
      have := encStr_length k.data
      simp only [List.length_append, List.length_cons]
      omega
    rw [pStrBody_encStr k.data _ _ hlen]
    simp only []
    rw [skipWs_cons_not _ (by decide)]
    simp only []
    have hrest2 : headNotDigit (encFields kvs2 (lvl + 1) ++ (nlIndent lvl ++ '}' :: rest)) :=
      headNotDigit_encFields kvs2 (lvl + 1) lvl ('}' :: rest)
    have hv2 := pVal_enc v f (lvl + 1) [ ' ' ] _ hv (by decide) hrest2
    rw [List.cons_append, List.nil_append] at hv2
    rw [hv2]
    simp only []
    rw [pFieldsRest_enc kvs2 f lvl rest hkvs]
    simp [string_mk_data]
end

/-- The JSON round trip: scanning a serialised value yields it back. -/
theorem jsonLoads_jsonDumps (r : Json) : jsonLoads (jsonDumps r) = some r := by
  have hfuel : jsize r ≤ (encVal r 0).length + 1 := jsize_le_enc r 0
  have h := pVal_enc r ((encVal r 0).length + 1) 0 [] [] hfuel (by simp) trivial
  rw [List.nil_append, List.append_nil] at h
  show (match pVal ((encVal r 0).length + 1) (encVal r 0) with
    | some (v, rest) => if skipWs rest = [] then some v else none
    | none => none) = some r
  rw [h]
  rfl

/-! ### Representability as a Python value -/

def keysNodup : List String → Bool
  | [] => true
  | k :: rest => !(rest.contains k) && keysNodup rest

/-- Keys of an object record. -/
def objKeys : JObj → List String
  | .nil => []
  | .cons k _ rest => k :: objKeys rest
termination_by structural kvs => kvs

/-! A record is representable as a Python `dict`-based value exactly when no
object in it repeats a key (a Python `dict` cannot hold duplicates). -/

mutual
def jsonWf : Json → Bool
  | .null => true
  | .bool _ => true
  | .num _ => true
  | .str _ => true
  | .arr xs => jsonWfL xs
  | .obj kvs => keysNodup (objKeys kvs) && jsonWfO kvs
termination_by structural j => j

def jsonWfL : JList → Bool
  | .nil => true
  | .cons x xs => jsonWf x && jsonWfL xs
termination_by structural xs => xs

def jsonWfO : JObj → Bool
  | .nil => true
  | .cons _ v kvs => jsonWf v && jsonWfO kvs
termination_by structural kvs => kvs
end

/-! ## Storage accessor, structured layer (`app/utils/file_ops.py`) -/

namespace FileOps

/-- Embedding of `file_ops.read_json`: read the text, then `json.loads`;
parse failure is a 500 "Invalid JSON file". -/
def read_json (cwd : APath) (fs : Fs) (p : String) : Except Err Json :=
  match read_file cwd fs p with
  | Except.error e => Except.error e
  | Except.ok content =>
    match jsonLoads content with
    | none => Except.error ⟨500, "Invalid JSON file"⟩
    | some j => Except.ok j

/-- Embedding of `file_ops.write_json`: `json.dumps(data, indent=2)` then
`write_file`. -/
def write_json (cwd : APath) (fs : Fs) (p : String) (data : Json) : Except Err Fs :=
  write_file cwd fs p (jsonDumps data)

end FileOps

/-! ## Claim theorems: path sandbox and storage accessor -/

/-- C1: if the resolved path lies outside every allowed root (no allowed
root is a prefix of it), `validate_path` fails with the 400 path violation
and never returns a path. -/
theorem C1_sandbox_containment (cwd : APath) (p : String)
    (h : ∀ a ∈ Config.ALLOWED_DIRS, ¬ a <+: resolvePath cwd (strChars p)) :
    Security.validate_path cwd p = Except.error Security.accessDeniedOutside := by
  unfold Security.validate_path
  have hany : (Config.ALLOWED_DIRS.any fun a => Security.inParents a (resolvePath cwd (strChars p))) = false := by
    rw [List.any_eq_false]
    intro a ha
    simp only [Security.inParents, Bool.and_eq_true, List.isPrefixOf_iff_prefix,
      Bool.not_eq_true, Bool.and_eq_false_iff, Bool.eq_false_iff]
    intro hc
    exact absurd hc.1 (h a ha)
  simp only [hany, Bool.not_false, if_true]

theorem C1_witness :
    (∀ a ∈ Config.ALLOWED_DIRS, ¬ a <+: resolvePath [] (strChars "/etc/passwd")) ∧
    Security.validate_path [] "/etc/passwd" = Except.error Security.accessDeniedOutside :=
  ⟨by decide, C1_sandbox_containment [] "/etc/passwd" (by decide)⟩

/-- A filesystem in which the host file `/etc/passwd` exists with marker
content. -/
def etcFs : Fs := [([strChars "etc", strChars "passwd"], "root:x:0:0:root")]

/-- C2 (code defect): the `/read` endpoint accepts "/data/../etc/passwd"
(its only guard is a textual `startswith("/data/")`) and returns the content
of `/etc/passwd` — the file **is** opened, there is no `PathViolation`. -/
theorem C2_read_endpoint_traversal :
    MainApp.read_endpoint [] etcFs "/data/../etc/passwd" =
      Except.ok "root:x:0:0:root" := rfl

/-- C3 (code defect): "/data/sub/../file" carries a raw ".." segment, yet
`validate_path` accepts it and returns the normalised path, because the
source's ".." check runs on the already-resolved string. -/
theorem C3_raw_dotdot_accepted :
    containsSubL (strChars "..") (strChars "/data/sub/../file") = true ∧
    Security.validate_path [] "/data/sub/../file" =
      Except.ok [strChars "data", strChars "file"] := ⟨rfl, rfl⟩

/-- C5: writing a representable record with `write_json` and reading it back
with `read_json` over the same sandbox path returns the same record. -/
theorem C5_json_roundtrip (cwd : APath) (fs : Fs) (p : String) (rp : APath) (r : Json)
    (hstart : startsWithL (strChars "/data") (strChars p) = true)
    (hval : Security.validate_path cwd p = Except.ok rp)
    (hwf : jsonWf r = true) :
    ∃ fs2, FileOps.write_json cwd fs p r = Except.ok fs2 ∧
      FileOps.read_json cwd fs2 p = Except.ok r := by
  refine ⟨fsInsert fs rp (jsonDumps r), ?_, ?_⟩
  · unfold FileOps.write_json FileOps.write_file Security.ensure_data_dir
    simp only [hstart, if_true]
    rw [hval]
  · unfold FileOps.read_json FileOps.read_file
    rw [hval]
    simp only [lookupFs_insert]
    rw [jsonLoads_jsonDumps]

/-- A sample structured record with nested containers. -/
def sampleRec : Json :=
  .obj (.cons "task" (.str "count")
    (.cons "paths" (.arr (.cons (.str "/data/in.txt") (.cons .null .nil)))
      (.cons "limit" (.num (-3)) .nil)))

theorem C5_witness : ∃ fs2,
    FileOps.write_json [] [] "/data/rec.json" sampleRec = Except.ok fs2 ∧
    FileOps.read_json [] fs2 "/data/rec.json" = Except.ok sampleRec :=
  C5_json_roundtrip [] [] "/data/rec.json" [strChars "data", strChars "rec.json"]
    sampleRec rfl rfl rfl

/-- A content one byte larger than the configured ceiling. -/
def oversizedContent : String := String.mk (List.replicate (Config.MAX_FILE_SIZE + 1) 'a')

/-- C6 (code defect): `MAX_FILE_SIZE` is never consulted: a write whose
content exceeds it completes, and reading the oversized file back completes
too — no `SizeLimitExceeded` surface exists in `file_ops.py`. -/
theorem C6_no_size_limit :
    Config.MAX_FILE_SIZE < oversizedContent.length ∧
    FileOps.write_file [] [] "/data/big.txt" oversizedContent =
      Except.ok [([strChars "data", strChars "big.txt"], oversizedContent)] ∧
    FileOps.read_file [] [([strChars "data", strChars "big.txt"], oversizedContent)]
      "/data/big.txt" = Except.ok oversizedContent := by
  refine ⟨?_, ?_, ?_⟩
  · show Config.MAX_FILE_SIZE < (String.mk (List.replicate (Config.MAX_FILE_SIZE + 1) 'a')).length
    have : (String.mk (List.replicate (Config.MAX_FILE_SIZE + 1) 'a')).length =
        Config.MAX_FILE_SIZE + 1 := by
      show (List.replicate (Config.MAX_FILE_SIZE + 1) 'a').length = Config.MAX_FILE_SIZE + 1
      exact List.length_replicate _ _
    omega
  · rfl
  · rfl

/-! ## Outbound model calls (`app/utils/llm.py`) -/

namespace Llm

/-- Outcome the network would deliver for one HTTP POST to the
text-generation collaborator. -/
inductive Attempt where
  | ok (s : String)
  | non200
  | transportError
deriving DecidableEq, Repr

/-- Non-2xx status: the inner `HTTPException(500, "LLM API call failed")` is
swallowed by the function's own `except Exception` and re-raised wrapped. -/
def non200Err : Err := ⟨500, "LLM API error: 500: LLM API call failed"⟩

/-- A transport failure (timeout, reset): the exception is caught by
`except Exception` and mapped to a 500. -/
def transportErr : Err := ⟨500, "LLM API error: transport failure"⟩

/-- Embedding of `llm.call_llm`: exactly one POST per call, consuming one
oracle entry; any failure of that single attempt is a terminal 500 for the
call.  No retry logic appears anywhere in the source function.  (The
`verify=False` keyword the source passes to `aiohttp` is not modelled; it
can only make calls fail more, never retry.) -/
def call_llm : List Attempt → Except Err (String × List Attempt)
  | [] => Except.error transportErr
  | .ok s :: rest => Except.ok (s, rest)
  | .non200 :: _ => Except.error non200Err
  | .transportError :: _ => Except.error transportErr

/-- Embedding of `llm.classify_task`: one `call_llm` with the taxonomy
prompt, then `.strip()` — the reply is not validated against any set. -/
def classify_task (attempts : List Attempt) : Except Err (String × List Attempt) :=
  match call_llm attempts with
  | Except.error e => Except.error e
  | Except.ok (s, rest) => Except.ok (stripS s, rest)

end Llm

/-! ## The dispatcher (`app/main.py`, `TaskHandler`) -/

namespace MainApp

/-- Reply oracle for `TaskHandler.call_llm` (which has no status check and
no exception handling): either a reply string arrives or the call raises. -/
inductive LlmResp where
  | ok (s : String)
  | fail
deriving DecidableEq, Repr

/-- An executor invocation recorded by the model: either one of the A1–A10
handlers of the primary table or a custom-task executor keyed by its type
string.  Reaching the `Executing` state of the specification's state
machine is exactly the appearance of such an event. -/
inductive ExecEvent where
  | aExec (cat : String)
  | customExec (ty : String)
deriving DecidableEq, Repr

/-- Per-request environment: working directory and filesystem, plus the
would-be behaviour of the executors that are outside the modelled core
(the A1/A2 handlers run subprocesses and network downloads;
`handle_api_fetch` … are domain executors the specification treats as
pluggable).  Under the faithful dispatcher semantics below these fields are
never consulted: both dispatch tables raise `AttributeError` while being
built, so no executor is ever reached. -/
structure Env where
  cwd : APath
  fs : Fs
  execA : String → Except Err Json
  execB : String → Json → Except Err Json

/-- Result of one dispatcher run: outcome, filesystem after the run, the
executor invocations that happened, and the unconsumed oracle suffix. -/
structure StepOut where
  result : Except Err Json
  fs : Fs
  log : List ExecEvent
  oracle : List LlmResp

def invalidPathErr : Err := ⟨400, "Invalid path access"⟩

def llmRaisedErr : Err := ⟨500, "LLM call raised"⟩

def jsonDecodeErr : Err := ⟨500, "JSONDecodeError"⟩

def keyErr (k : String) : Err := ⟨500, "KeyError: " ++ k⟩

def unsupportedTaskErr : Err := ⟨400, "Unsupported task type"⟩

def fileNotFoundErr : Err := ⟨500, "FileNotFoundError"⟩

def strptimeErr : Err := ⟨500, "ValueError: strptime"⟩

/-- Lookup in a parsed JSON object, as indexing a Python `dict` built by
`json.loads`: the last occurrence of a duplicated key wins. -/
def jObjGet : JObj → String → Option Json
  | .nil, _ => none
  | .cons k v rest, key =>
    match jObjGet rest key with
    | some r => some r
    | none => if k = key then some v else none
termination_by structural kvs => kvs

/-- `info[key]` on a decoded JSON value; `none` models the raised
`KeyError`/`TypeError` when the value is not an object or lacks the key. -/
def jGet : Json → String → Option Json
  | .obj kvs, k => jObjGet kvs k
  | _, _ => none

/-! ### Dates (`datetime.strptime(date, "%Y-%m-%d").weekday()`) -/

def allDigits (cs : Chars) : Bool :=
  cs.all fun c => decide (48 ≤ c.toNat ∧ c.toNat ≤ 57)

def charsToNat (cs : Chars) : Nat := (pNatAux cs 0).1

def isLeapYear (y : Nat) : Bool :=
  y % 4 == 0 && (y % 100 != 0 || y % 400 == 0)

def daysInMonth (y m : Nat) : Nat :=
  if m = 2 then (if isLeapYear y then 29 else 28)
  else if m = 4 ∨ m = 6 ∨ m = 9 ∨ m = 11 then 30
  else 31

/-- Parse "%Y-%m-%d" with calendar validation, as `datetime.strptime`
(year up to four digits, month and day up to two, ranges checked). -/
def parseDate (cs : Chars) : Option (Nat × Nat × Nat) :=
  match splitOnCharL '-' cs with
  | [ys, ms, ds] =>
    if allDigits ys ∧ 1 ≤ ys.length ∧ ys.length ≤ 4 ∧
        allDigits ms ∧ 1 ≤ ms.length ∧ ms.length ≤ 2 ∧
        allDigits ds ∧ 1 ≤ ds.length ∧ ds.length ≤ 2 then
      if 1 ≤ charsToNat ms ∧ charsToNat ms ≤ 12 ∧ 1 ≤ charsToNat ds ∧
          charsToNat ds ≤ daysInMonth (charsToNat ys) (charsToNat ms) then
        some (charsToNat ys, charsToNat ms, charsToNat ds)
      else none
    else none
  | _ => none

/-- Python `date.weekday()`: Monday = 0 … Sunday = 6, via Zeller's
congruence (January and February counted as months 13/14 of the previous
year). -/
def pyWeekday : Nat × Nat × Nat → Nat
  | (y, m, d) =>
    let Y := if m ≤ 2 then y - 1 else y
    let M := if m ≤ 2 then m + 12 else m
    let K := Y % 100
    let J := Y / 100
    ((d + 13 * (M + 1) / 5 + K + K / 4 + J / 4 + 5 * J) % 7 + 5) % 7

/-- `f.readlines()` followed by per-line `.strip()` is modelled by splitting
on newline and dropping a trailing empty piece (the terminators themselves
are removed by the strip that follows). -/
def readLines (s : String) : List Chars :=
  match s.data with
  | [] => []
  | cs =>
    let parts := splitOnCharL '\n' cs
    if parts.getLast? = some [] then parts.dropLast else parts

def parseAllDates : List Chars → Option (List (Nat × Nat × Nat))
  | [] => some []
  | l :: ls =>
    match parseDate l with
    | none => none
    | some d => (parseAllDates ls).map fun ds => d :: ds

def natToString (n : Nat) : String := String.mk (natChars n)

/-! ### `TaskHandler.handle_count_weekdays` (`app/main.py`)

The handler extracts the input/output paths by one model call whose reply
must parse as a JSON object with string fields "input" and "output", opens
the input file **directly** (no `validate_path` in this handler), counts the
lines whose `strptime("%Y-%m-%d")` date falls on a Wednesday
(`weekday() == 2`) and writes the decimal count to the output path.  Any
raised error (missing file, unparsable reply, bad date) propagates to
`run_task`, which maps it to a 500. -/
def handle_count_weekdays (env : Env) (oracle : List LlmResp) (_d : String) : StepOut :=
  match oracle with
  | [] => ⟨Except.error llmRaisedErr, env.fs, [], []⟩
  | .fail :: rest => ⟨Except.error llmRaisedErr, env.fs, [], rest⟩
  | .ok reply :: rest =>
    match jsonLoads reply with
    | none => ⟨Except.error jsonDecodeErr, env.fs, [], rest⟩
    | some files =>
      match jGet files "input" with
      | some (Json.str inp) =>
        (match jGet files "output" with
        | some (Json.str outp) =>
          (match lookupFs env.fs (resolvePath env.cwd (strChars inp)) with
          | none => ⟨Except.error fileNotFoundErr, env.fs, [], rest⟩
          | some content =>
            match parseAllDates ((readLines content).map stripL) with
            | none => ⟨Except.error strptimeErr, env.fs, [], rest⟩
            | some dates =>
              ⟨Except.ok (Json.obj (.cons "status" (.str "success")
                  (.cons "count" (.num ((dates.filter fun dt => pyWeekday dt == 2).length : Nat)) .nil))),
                fsInsert env.fs (resolvePath env.cwd (strChars outp))
                  (natToString (dates.filter fun dt => pyWeekday dt == 2).length),
                [], rest⟩)
        | _ => ⟨Except.error (keyErr "output"), env.fs, [], rest⟩)
      | _ => ⟨Except.error (keyErr "input"), env.fs, [], rest⟩

/-- The AttributeError raised while `handle_task` builds its handlers dict:
the entry for A4 is `self.handle_sort_contacts`, a method `TaskHandler`
never defines, and a Python dict literal evaluates its values eagerly — so
the error fires right after classification and before `handlers.get`.  The
`try` of `handle_task` has no `except` clause, so the error propagates to
`run_task`, which maps it to a 500 whose detail is `str(e)`. -/
def handlersAttributeErr : Err :=
  ⟨500, "AttributeError: TaskHandler object has no attribute handle_sort_contacts"⟩

/-- The AttributeError raised while `handle_custom_task` builds its own
dict: already its first entry is `self.handle_api_fetch`, undefined on
`TaskHandler`.  It fires after the extraction call and `json.loads` but
before the type lookup. -/
def customAttributeErr : Err :=
  ⟨500, "AttributeError: TaskHandler object has no attribute handle_api_fetch"⟩

/-- The keys of the inner dispatch table `handle_custom_task` writes down
(all eight values name undefined methods, so building the table raises). -/
def customTable : List String :=
  ["api_fetch", "git", "sql", "scraping", "image", "audio", "markdown", "csv"]

/-! ### `TaskHandler.handle_custom_task` (`app/main.py`)

In source order: one model call describing the task as a JSON record
(raising on transport failure), `json.loads` of the reply (raising a
`JSONDecodeError` on a malformed reply), and then the `handlers = ...` dict
literal — whose very first value `self.handle_api_fetch` is undefined on
`TaskHandler`, so the eager evaluation of the literal raises
`AttributeError` there.  The `handlers.get(task_info["type"])` lookup, the
400 "Unsupported task type" branch, and every executor invocation sit after
that line and are unreachable; accordingly the embedding never emits an
`ExecEvent` and never consults the "type" field. -/
def handle_custom_task (env : Env) (oracle : List LlmResp) (_d : String) : StepOut :=
  match oracle with
  | [] => ⟨Except.error llmRaisedErr, env.fs, [], []⟩
  | .fail :: rest => ⟨Except.error llmRaisedErr, env.fs, [], rest⟩
  | .ok reply :: rest =>
    match jsonLoads reply with
    | none => ⟨Except.error jsonDecodeErr, env.fs, [], rest⟩
    | some _ => ⟨Except.error customAttributeErr, env.fs, [], rest⟩

/-- The primary dispatch table's keys, as written in `handle_task`. -/
def A_TABLE : List String :=
  ["A1", "A2", "A3", "A4", "A5", "A6", "A7", "A8", "A9", "A10"]

/-! ### `TaskHandler.handle_task` (`app/main.py`)

In source order: the guard
`'..' in task_description or not task_description.startswith('/data')`
rejects with a 400 before anything else; then one classification call
(whose stripped reply is bound to `task_type`); then the
`handlers = ...` dict literal.  A Python dict literal evaluates its values
eagerly, and the A4 entry `self.handle_sort_contacts` (like A5-A10) names
a method `TaskHandler` never defines, so the literal raises
`AttributeError` — after the classification call has consumed its reply
and before `handlers.get` runs.  The `try` of `handle_task` has no
`except` clause, so the error propagates to `run_task` and surfaces as a
500; the reply value itself is never examined, no primary or custom
executor can be reached, and no `ExecEvent` is ever emitted.  (The defined
methods `handle_count_weekdays` and `handle_custom_task` are embedded
separately above; from `handle_task` they are dead code.) -/
def handle_task (env : Env) (oracle : List LlmResp) (d : String) : StepOut :=
  if containsSubL (strChars "..") (strChars d) ∨
      ¬ startsWithL (strChars "/data") (strChars d) then
    ⟨Except.error invalidPathErr, env.fs, [], oracle⟩
  else
    match oracle with
    | [] => ⟨Except.error llmRaisedErr, env.fs, [], []⟩
    | .fail :: rest => ⟨Except.error llmRaisedErr, env.fs, [], rest⟩
    | .ok _reply :: rest =>
      ⟨Except.error handlersAttributeErr, env.fs, [], rest⟩

end MainApp

/-! ## Claim theorems: dispatcher and model calls -/

/-- An environment whose abstract executors succeed with `null`. -/
def plainEnv : MainApp.Env :=
  ⟨[], [], fun _ => Except.ok Json.null, fun _ _ => Except.ok Json.null⟩

/-- C4 (counterexample): the classifier reply "banana" is outside the
closed category set, yet the run does not terminate in a classification
failure: evaluating the handlers dict raises `AttributeError` right after
classification, so the outcome is a generic 500.  No executor is invoked
and the second oracle entry (which would have fed `handle_custom_task`) is
left unconsumed — there is no `ClassificationFailure` outcome at all. -/
theorem C4_counterexample :
    MainApp.handle_task plainEnv
        [MainApp.LlmResp.ok "banana", MainApp.LlmResp.ok "unused"] "/data/task" =
      ⟨Except.error MainApp.handlersAttributeErr, plainEnv.fs, [],
        [MainApp.LlmResp.ok "unused"]⟩ := rfl

/-- Every guard-passing description with a delivered classifier reply dies
with the handlers-table `AttributeError` (shared by the C4 and C7
analyses). -/
theorem handle_task_attr_error (env : MainApp.Env) (d reply : String)
    (rest : List MainApp.LlmResp)
    (hg1 : containsSubL (strChars "..") (strChars d) = false)
    (hg2 : startsWithL (strChars "/data") (strChars d) = true) :
    MainApp.handle_task env (MainApp.LlmResp.ok reply :: rest) d =
      ⟨Except.error MainApp.handlersAttributeErr, env.fs, [], rest⟩ := by
  unfold MainApp.handle_task
  have hcond : ¬ (containsSubL (strChars "..") (strChars d) ∨
      ¬ startsWithL (strChars "/data") (strChars d)) := by
    simp [hg1, hg2]
  rw [if_neg hcond]

/-- `handle_custom_task` can never yield the 400 "Unsupported task type":
its own dict literal raises `AttributeError` before the type lookup, and it
invokes no executor (shared helper for C7). -/
theorem custom_task_no_unsupported (env : MainApp.Env)
    (oracle : List MainApp.LlmResp) (d : String) :
    (MainApp.handle_custom_task env oracle d).result ≠
      Except.error MainApp.unsupportedTaskErr ∧
    (MainApp.handle_custom_task env oracle d).log = [] := by
  cases oracle with
  | nil =>
    refine ⟨fun h => ?_, rfl⟩
    have h2 : (Except.error MainApp.llmRaisedErr : Except Err Json) =
        Except.error MainApp.unsupportedTaskErr := h
    rw [Except.error.injEq] at h2
    exact absurd h2 (by decide)
  | cons r rest =>
    cases r with
    | fail =>
      refine ⟨fun h => ?_, rfl⟩
      have h2 : (Except.error MainApp.llmRaisedErr : Except Err Json) =
          Except.error MainApp.unsupportedTaskErr := h
      rw [Except.error.injEq] at h2
      exact absurd h2 (by decide)
    | ok reply =>
      cases hj : jsonLoads reply with
      | none =>
        have he : MainApp.handle_custom_task env (MainApp.LlmResp.ok reply :: rest) d =
            ⟨Except.error MainApp.jsonDecodeErr, env.fs, [], rest⟩ := by
          unfold MainApp.handle_custom_task
          simp only []
          rw [hj]
        rw [he]
        refine ⟨fun h => ?_, rfl⟩
        rw [Except.error.injEq] at h
        exact absurd h (by decide)
      | some info =>
        have he : MainApp.handle_custom_task env (MainApp.LlmResp.ok reply :: rest) d =
            ⟨Except.error MainApp.customAttributeErr, env.fs, [], rest⟩ := by
          unfold MainApp.handle_custom_task
          simp only []
          rw [hj]
        rw [he]
        refine ⟨fun h => ?_, rfl⟩
        rw [Except.error.injEq] at h
        exact absurd h (by decide)

/-- C4 (amended): for every guard-passing description, a trimmed classifier
reply outside the closed A1-A10 set still never yields a
`ClassificationFailure`: the eagerly evaluated handlers dict raises
`AttributeError` first, so the run terminates in that generic 500 without
invoking any executor and without any further model call. -/
theorem C4_amended (env : MainApp.Env) (d reply : String) (rest : List MainApp.LlmResp)
    (hg1 : containsSubL (strChars "..") (strChars d) = false)
    (hg2 : startsWithL (strChars "/data") (strChars d) = true)
    (hreply : MainApp.A_TABLE.contains (stripS reply) = false) :
    MainApp.handle_task env (MainApp.LlmResp.ok reply :: rest) d =
      ⟨Except.error MainApp.handlersAttributeErr, env.fs, [], rest⟩ :=
  handle_task_attr_error env d reply rest hg1 hg2

theorem C4_witness :
    MainApp.handle_task plainEnv [MainApp.LlmResp.ok " B11 "] "/data/x" =
      ⟨Except.error MainApp.handlersAttributeErr, plainEnv.fs, [], []⟩ :=
  C4_amended plainEnv "/data/x" " B11 " [] rfl rfl rfl

/-- C7 (counterexample): the classified category "B5" indeed has no
executor in the primary table, but no `Failed(UnsupportedCategory)`
results: the table construction itself raises `AttributeError` before any
lookup, the run ends in that generic 500, no executor is invoked, and the
rest of the oracle is left unconsumed. -/
theorem C7_counterexample :
    MainApp.handle_task plainEnv
        [MainApp.LlmResp.ok "B5", MainApp.LlmResp.ok "unconsumed"] "/data/fetch" =
      ⟨Except.error MainApp.handlersAttributeErr, plainEnv.fs, [],
        [MainApp.LlmResp.ok "unconsumed"]⟩ := rfl

/-- C7 (amended): the executor-table lookup for the classified category is
unreachable — every classified run terminates with the handlers-table
`AttributeError` 500, no executor invoked — and the 400 "Unsupported task
type" branch of `handle_custom_task` is equally unreachable, its own table
construction raising `AttributeError` first; so no run terminates in
`Failed(UnsupportedCategory)`. -/
theorem C7_amended (env : MainApp.Env) (d reply : String)
    (rest oracle2 : List MainApp.LlmResp) (d2 : String)
    (hg1 : containsSubL (strChars "..") (strChars d) = false)
    (hg2 : startsWithL (strChars "/data") (strChars d) = true)
    (hreply : MainApp.A_TABLE.contains (stripS reply) = false) :
    MainApp.handle_task env (MainApp.LlmResp.ok reply :: rest) d =
      ⟨Except.error MainApp.handlersAttributeErr, env.fs, [], rest⟩ ∧
    (MainApp.handle_custom_task env oracle2 d2).result ≠
      Except.error MainApp.unsupportedTaskErr ∧
    (MainApp.handle_custom_task env oracle2 d2).log = [] :=
  ⟨handle_task_attr_error env d reply rest hg1 hg2,
    custom_task_no_unsupported env oracle2 d2⟩

theorem C7_witness :
    (MainApp.handle_task plainEnv [MainApp.LlmResp.ok "B5"] "/data/z" =
      ⟨Except.error MainApp.handlersAttributeErr, plainEnv.fs, [], []⟩ ∧
    (MainApp.handle_custom_task plainEnv
        [MainApp.LlmResp.ok "\x7b\"type\": \"quantum\"\x7d"] "/data/q").result ≠
      Except.error MainApp.unsupportedTaskErr ∧
    (MainApp.handle_custom_task plainEnv
        [MainApp.LlmResp.ok "\x7b\"type\": \"quantum\"\x7d"] "/data/q").log = []) :=
  C7_amended plainEnv "/data/z" "B5" []
    [MainApp.LlmResp.ok "\x7b\"type\": \"quantum\"\x7d"] "/data/q" rfl rfl rfl

/-- C8 (counterexample): the first attempt times out and a retry would have
returned "A3", but `call_llm` fails with the 500 transport error — the
available successful retry is never issued. -/
theorem C8_counterexample :
    Llm.call_llm [Llm.Attempt.transportError, Llm.Attempt.ok "A3"] =
      Except.error Llm.transportErr := rfl

/-- C8 (amended): an outbound model call issues exactly one attempt.  A
transient transport failure of that attempt is terminal for the call (an
HTTP 500), whatever outcomes further attempts would have had; the pipeline
proceeds only when the first attempt itself succeeds. -/
theorem C8_amended (s : String) (rest rest2 : List Llm.Attempt) :
    Llm.call_llm (Llm.Attempt.transportError :: rest) = Except.error Llm.transportErr ∧
    Llm.call_llm (Llm.Attempt.ok s :: rest2) = Except.ok (s, rest2) := ⟨rfl, rfl⟩

/-- The weekday-count scenario description from the specification. -/
def wednesdayDesc : String :=
  "How many Wednesdays are in /data/dates.txt? Write the count to /data/dates-wednesdays.txt"

/-- C9 (code defect): the scenario's task description is an English sentence
not beginning with "/data", so `handle_task` raises the 400 "Invalid path
access" before any classification call — for every oracle and filesystem the
outcome is the same error, the oracle is never consulted, no executor runs,
and nothing is written; the pipeline never completes with "2". -/
theorem C9_guard_rejects (env : MainApp.Env) (oracle : List MainApp.LlmResp) :
    MainApp.handle_task env oracle wednesdayDesc =
      ⟨Except.error MainApp.invalidPathErr, env.fs, [], oracle⟩ := rfl

/-- The extractor reply of the C9 scenario. -/
def extractorReply : String :=
  "\x7b\"input\": \"/data/dates.txt\", \"output\": \"/data/dates-wednesdays.txt\"\x7d"

/-- A dates file with seven date lines of which exactly two (2025-01-01 and
2025-01-08) are Wednesdays. -/
def datesContent : String :=
  "2025-01-01\n2025-01-02\n2025-01-03\n2025-01-06\n2025-01-08\n2025-01-10\n2025-01-11\n"

def datesEnv : MainApp.Env :=
  ⟨[], [([strChars "data", strChars "dates.txt"], datesContent)],
    fun _ => Except.ok Json.null, fun _ _ => Except.ok Json.null⟩

/-- The A3 handler itself does implement the scenario: invoked directly with
the scenario's extractor reply over the seven-line dates file, it succeeds
with count 2 and writes exactly "2" to /data/dates-wednesdays.txt.  (Only
the dispatcher guard of C9 stands between the description and this
behaviour.) -/
theorem count_weekdays_scenario :
    (MainApp.handle_count_weekdays datesEnv [MainApp.LlmResp.ok extractorReply]
        wednesdayDesc).result =
      Except.ok (Json.obj (.cons "status" (.str "success")
        (.cons "count" (.num 2) .nil))) ∧
    lookupFs (MainApp.handle_count_weekdays datesEnv [MainApp.LlmResp.ok extractorReply]
        wednesdayDesc).fs
      [strChars "data", strChars "dates-wednesdays.txt"] = some "2" := ⟨rfl, rfl⟩

/-- C10: any description that contains ".." or does not begin with "/data"
— ordinary English sentences included — is rejected with the 400 "Invalid
path access" before any classification: the outcome is independent of the
oracle, which is returned unconsumed, and no executor is invoked. -/
theorem C10_description_guard (env : MainApp.Env) (oracle : List MainApp.LlmResp)
    (d : String)
    (h : containsSubL (strChars "..") (strChars d) = true ∨
      startsWithL (strChars "/data") (strChars d) = false) :
    MainApp.handle_task env oracle d =
      ⟨Except.error MainApp.invalidPathErr, env.fs, [], oracle⟩ := by
  unfold MainApp.handle_task
  have hcond : containsSubL (strChars "..") (strChars d) = true ∨
      ¬ startsWithL (strChars "/data") (strChars d) = true := by
    rcases h with h | h
    · exact Or.inl h
    · exact Or.inr (by rw [h]; simp)
  rw [if_pos hcond]

theorem C10_witness :
    MainApp.handle_task plainEnv [MainApp.LlmResp.ok "A3"]
        "Count the Wednesdays in the dates file... then write the result." =
      ⟨Except.error MainApp.invalidPathErr, plainEnv.fs, [],
        [MainApp.LlmResp.ok "A3"]⟩ :=
  C10_description_guard plainEnv [MainApp.LlmResp.ok "A3"]
    "Count the Wednesdays in the dates file... then write the result."
    (Or.inl (by decide))
